import Mathlib

/-!
Verification development for the Fractal-Visualiser repository.

The JavaScript generator functions are shallowly embedded in Lean:

* JS numbers are modelled by `ℚ` (the escape-time, chaos-game, L-system,
  space-filling-curve and Menger code performs exact field arithmetic on the
  values the claims are about, so the exact-arithmetic idealisation is used);
* for the Newton solver and the 3D escape-time generators, whose control flow
  explicitly branches on non-finite values (`isFinite`, `NaN` arising from
  `acos`/`0/0`), numbers are modelled by `Option ℚ` with `none` standing for a
  non-finite value (`NaN`/`±Infinity`): arithmetic propagates `none` and every
  order comparison involving `none` is `false`, which is the fragment of IEEE
  semantics these branches depend on;
* JS `while`/`for` loops become fuel-indexed structural recursions (the fuel is
  the loop bound of the source);
* `Math.random()` becomes an explicit stream `ℕ → ℚ` consumed one value per
  call, with a counter threaded through;
* `Math.sqrt` (and the transcendental functions of the 3D generators), which
  have no exact rational counterpart, are passed in as explicit function
  parameters; the theorems either hold for every choice of these parameters or
  pin them only at arguments where the IEEE result is exact.
-/

/- ============================================================
   2D escape time.
   ============================================================ -/

/-- From `src/js/mandelbrot.js`, `mandelbrotEscape`: the body of the
`while (x*x + y*y <= 4 && iter < maxIter)` loop.  The first argument pair is
`(cx, cy)`, then the running `(x, y)`, the running `iter`, and the remaining
fuel `maxIter - iter`. -/
def mandelbrotLoop (cx cy : ℚ) : ℚ → ℚ → ℕ → ℕ → ℕ
  | _, _, iter, 0 => iter
  | x, y, iter, rem + 1 =>
    if x * x + y * y ≤ 4 then
      mandelbrotLoop cx cy (x * x - y * y + cx) (2 * x * y + cy) (iter + 1) rem
    else iter

/-- From `src/js/mandelbrot.js`, `mandelbrotEscape(cx, cy, maxIter)`:
starts from `z = 0` and returns the escape iteration, or `maxIter` if the
point never escapes. -/
def mandelbrotEscape (cx cy : ℚ) (maxIter : ℕ) : ℕ :=
  mandelbrotLoop cx cy 0 0 0 maxIter

/-- From `src/js/julia.js`, `juliaEscape`: the body of the
`while (z.re*z.re + z.im*z.im <= 4 && iteration < max)` loop; `(kre, kim)` is
the global `juliaK`. -/
def juliaLoop (kre kim : ℚ) : ℚ → ℚ → ℕ → ℕ → ℕ
  | _, _, iteration, 0 => iteration
  | re, im, iteration, rem + 1 =>
    if re * re + im * im ≤ 4 then
      juliaLoop kre kim (re * re - im * im + kre) (2 * re * im + kim)
        (iteration + 1) rem
    else iteration

/-- From `src/js/julia.js`, `juliaEscape(z)` with the globals `juliaK` and
`maxIter` made explicit: iterates `z ← z² + juliaK` from `z = (zre, zim)`. -/
def juliaEscape (zre zim kre kim : ℚ) (maxIter : ℕ) : ℕ :=
  juliaLoop kre kim zre zim 0 maxIter

/-- The two rendering modes of `drawFractal` in the combined
Mandelbrot/Julia page (`src/unnamed/part_000`). -/
inductive FracMode
  | mandelbrot
  | julia

/-- From `src/unnamed/part_000`, `drawFractal`: the inner
`while (zx*zx + zy*zy <= 4 && iter < maxIter)` loop shared by both modes. -/
def fractalLoop (cx cy : ℚ) : ℚ → ℚ → ℕ → ℕ → ℕ
  | _, _, iter, 0 => iter
  | zx, zy, iter, rem + 1 =>
    if zx * zx + zy * zy ≤ 4 then
      fractalLoop cx cy (zx * zx - zy * zy + cx) (2 * zx * zy + cy)
        (iter + 1) rem
    else iter

/-- From `src/unnamed/part_000`, `drawFractal`: the per-pixel computation.
In `mandelbrot` mode the loop starts at `z = 0` with constant `c = p` (the
domain point); in `julia` mode it starts at `z = p` with constant
`c = constantK = (Kre, Kim)`. -/
def drawFractalIter (mode : FracMode) (pre pim Kre Kim : ℚ) (maxIter : ℕ) : ℕ :=
  match mode with
  | .mandelbrot => fractalLoop pre pim 0 0 0 maxIter
  | .julia => fractalLoop Kre Kim pre pim 0 maxIter

/- ============================================================
   Chaos game (src/unnamed/part_000).
   ============================================================ -/

/-- 3-vectors, as used by the polyhedral chaos game of `src/unnamed/part_000`. -/
abbrev V3 : Type := ℚ × ℚ × ℚ

/-- From `src/unnamed/part_000`, `add3`. -/
def add3 (a b : V3) : V3 :=
  (a.1 + b.1, a.2.1 + b.2.1, a.2.2 + b.2.2)

/-- From `src/unnamed/part_000`, `scale3`. -/
def scale3 (v : V3) (s : ℚ) : V3 :=
  (v.1 * s, v.2.1 * s, v.2.2 * s)

/-- From `src/unnamed/part_000`, `dot3`. -/
def dot3 (a b : V3) : ℚ :=
  a.1 * b.1 + a.2.1 * b.2.1 + a.2.2 * b.2.2

/-- From `src/unnamed/part_000`, `len3(v) = Math.sqrt(dot3(v, v))`.
`Math.sqrt` has no exact rational counterpart, so the square-root
implementation `sq` is an explicit parameter. -/
def len3 (sq : ℚ → ℚ) (v : V3) : ℚ :=
  sq (dot3 v v)

/-- From `src/unnamed/part_000`, `normalise`: `L = len3(v) || 1` (the JS `||`
replaces a zero length by 1; `NaN` cannot arise in the exact model), then
divide each component by `L`. -/
def normalise (sq : ℚ → ℚ) (v : V3) : V3 :=
  let L := if len3 sq v = 0 then 1 else len3 sq v
  (v.1 / L, v.2.1 / L, v.2.2 / L)

/-- The `constraints` record of `generateChaosGame` in `src/unnamed/part_000`. -/
structure Constraints where
  noRepeat : Bool
  noOppFace : Bool

/-- One `Math.random()`-based draw of `generateChaosGame`
(`idx = (Math.random() * targets.length) | 0`): the stream `r` supplies the
`Math.random()` values (in `[0,1)`), `c` is the position in the stream. -/
def drawIdx (len : ℕ) (r : ℕ → ℚ) (c : ℕ) : ℕ :=
  (⌊r c * (len : ℚ)⌋).toNat

/-- The acceptance test of the retry loop in `generateChaosGame`
(`src/unnamed/part_000`): a draw is rejected when `noRepeat` is set and the
index equals the previous index (`lastIndex`, `-1` initially), or when
`noOppFace` is set and `dot3(normalise(p), targets[idx]) < -0.2`.
`targets.getD idx (0,0,0)` stands for `targets[idx]`; an out-of-range JS
access would yield `undefined`, a dot product of `NaN` and an accepted draw,
and the default `(0,0,0)` gives a dot product of `0` and likewise an
accepted draw. -/
def acceptDraw (cons : Constraints) (sq : ℚ → ℚ) (targets : List V3)
    (p : V3) (last : ℤ) (idx : ℕ) : Bool :=
  if cons.noRepeat && ((idx : ℤ) == last) then false
  else if cons.noOppFace
      && decide (dot3 (normalise sq p) (targets.getD idx (0, 0, 0)) < -(1/5)) then
    false
  else true

/-- From `src/unnamed/part_000`, `generateChaosGame`: the
`for (guard = 0; guard < 20; guard++)` retry loop.  `attempts` is the number
of draws still allowed (20 at entry), `c` the random-stream position.
Returns the selected index, the next stream position, and whether the index
was accepted by the constraints (when every attempt is rejected the JS loop
falls through and uses the last drawn index anyway; the flag is then
`false`). -/
def retryGo (cons : Constraints) (sq : ℚ → ℚ) (targets : List V3)
    (p : V3) (last : ℤ) (r : ℕ → ℚ) : ℕ → ℕ → ℕ × ℕ × Bool
  | 0, c => (0, c, false)
  | attempts + 1, c =>
    let idx := drawIdx targets.length r c
    if acceptDraw cons sq targets p last idx then (idx, c + 1, true)
    else if attempts = 0 then (idx, c + 1, false)
    else retryGo cons sq targets p last r attempts (c + 1)

/-- One emitted step of `generateChaosGame`: the chosen target index, the
updated running point, and whether the index was accepted within the retry
cap. -/
structure ChaosStep where
  idx : ℕ
  point : V3
  found : Bool

/-- From `src/unnamed/part_000`, `generateChaosGame`: the
`for (i = 0; i < iters; i++)` loop.  Each step runs the 20-attempt retry
loop, then sets `p ← (1-λ)·p + λ·targets[idx]` and emits the point. -/
def chaosSteps (cons : Constraints) (sq : ℚ → ℚ) (targets : List V3)
    (lambda : ℚ) (r : ℕ → ℚ) : ℕ → V3 → ℤ → ℕ → List ChaosStep
  | 0, _, _, _ => []
  | iters + 1, p, last, c =>
    let res := retryGo cons sq targets p last r 20 c
    let t := targets.getD res.1 (0, 0, 0)
    let p' := add3 (scale3 p (1 - lambda)) (scale3 t lambda)
    ⟨res.1, p', res.2.2⟩ :: chaosSteps cons sq targets lambda r iters p' (res.1 : ℤ) res.2.1

/-- From `src/unnamed/part_000`, `generateChaosGame(targets, lambda, iters,
constraints)`: empty target list yields `[]`; otherwise the point sequence of
the constrained chaos game starting from `p = (0,0,0)`, `lastIndex = -1`. -/
def generateChaosGame (targets : List V3) (lambda : ℚ) (iters : ℕ)
    (cons : Constraints) (sq : ℚ → ℚ) (r : ℕ → ℚ) : List V3 :=
  if targets.isEmpty then []
  else (chaosSteps cons sq targets lambda r iters (0, 0, 0) (-1) 0).map (·.point)

/- ============================================================
   Space-filling curves (src/unnamed/part_003).
   ============================================================ -/

/-- From `src/unnamed/part_003`, `generateHilbert`: the inner `rot(n, x, y,
rx, ry)` helper (the first JS parameter, the scale, is called `s` here).
When `ry === 0`: if `rx === 1` reflect both coordinates across the centre
(`x = s-1-x`, `y = s-1-y`), then swap `x` and `y`. -/
def hilbertRot (s x y rx ry : ℕ) : ℕ × ℕ :=
  if ry = 0 then
    if rx = 1 then (s - 1 - y, s - 1 - x)
    else (y, x)
  else (x, y)

/-- From `src/unnamed/part_003`, `generateHilbert`: the
`for (s = 1; s < N; s *= 2)` decoding loop for one index `d`.  For
`N = 2^n` the loop runs exactly `n` times, so the fuel is `n`; `s` starts at
1 and doubles, `t` starts at `d` and is divided by 4 each round
(`rx = 1 & (t >> 1)`, `ry = 1 & (t ^ rx)`). -/
def hilbertGo : ℕ → ℕ → ℕ → ℕ → ℕ → ℕ × ℕ
  | 0, _, _, x, y => (x, y)
  | fuel + 1, s, t, x, y =>
    let rx := (t >>> 1) &&& 1
    let ry := (t ^^^ rx) &&& 1
    let p := hilbertRot s x y rx ry
    hilbertGo fuel (2 * s) (t / 4) (p.1 + s * rx) (p.2 + s * ry)

/-- From `src/unnamed/part_003`, `generateHilbert(n)`: the grid coordinates
`(x, y)` decoded from the linear index `d` (the subsequent scaling of the
grid point to canvas pixels via `transformPoint` is presentation and out of
scope). -/
def hilbertD2XY (n d : ℕ) : ℕ × ℕ :=
  hilbertGo n 1 d 0 0

/-- From `src/unnamed/part_003`, `generateZOrder`: the
`for (bit = 0; bit < n; bit++)` bit-interleaving loop for one index `i`
(`x |= ((i >> (2*bit+1)) & 1) << bit; y |= ((i >> (2*bit)) & 1) << bit`).
The fuel is the number of bit positions left, `bit` the current position. -/
def zOrderGo (i : ℕ) : ℕ → ℕ → ℕ → ℕ → ℕ × ℕ
  | 0, _, x, y => (x, y)
  | fuel + 1, bit, x, y =>
    zOrderGo i fuel (bit + 1)
      (x ||| (((i >>> (2 * bit + 1)) &&& 1) <<< bit))
      (y ||| (((i >>> (2 * bit)) &&& 1) <<< bit))

/-- From `src/unnamed/part_003`, `generateZOrder(n)`: the grid cell visited
at linear index `i`. -/
def zOrderXY (n i : ℕ) : ℕ × ℕ :=
  zOrderGo i n 0 0 0

/-- From `src/unnamed/part_003`, `generateZOrder(n)`: the full index-ascending
visiting order over the `2^n × 2^n` grid, in grid coordinates (the scaling of
each cell to canvas pixels via `transformPoint` is presentation and out of
scope). -/
def generateZOrderCells (n : ℕ) : List (ℕ × ℕ) :=
  (List.range (2 ^ n * 2 ^ n)).map (fun i => zOrderXY n i)

/- ============================================================
   L-system rewriting (src/unnamed/part_000).
   ============================================================ -/

/-- From `src/unnamed/part_000`, `generateLSystemString`: the inner
`for (char of result) next += rules[char] || char` pass — every symbol is
replaced simultaneously by its rule image, symbols without a rule pass
through unchanged. -/
def lsysStep (rules : Char → Option (List Char)) (s : List Char) : List Char :=
  s.flatMap (fun c => (rules c).getD [c])

/-- From `src/unnamed/part_000`, `generateLSystemString(axiom, rules,
iterations)`: apply the simultaneous rewrite `iterations` times to the
axiom. -/
def generateLSystemString (rules : Char → Option (List Char)) :
    List Char → ℕ → List Char
  | result, 0 => result
  | result, iterations + 1 =>
    generateLSystemString rules (lsysStep rules result) iterations

/-- The single rule `F → "F+F"` of the claim. -/
def ruleFPlusF : Char → Option (List Char) := fun c =>
  if c = 'F' then some ['F', '+', 'F'] else none

/- ============================================================
   Affine IFS (src/js/affine.js).
   ============================================================ -/

/-- From `src/js/affine.js`: one affine map of a map set
(`{a11, a12, a21, a22, b1, b2, prob}`). -/
structure AffineMapJS where
  a11 : ℚ
  a12 : ℚ
  a21 : ℚ
  a22 : ℚ
  b1 : ℚ
  b2 : ℚ
  prob : ℚ

/-- From `src/js/affine.js`, `applyAffine(p, matrix)`. -/
def applyAffine (p : ℚ × ℚ) (matrix : AffineMapJS) : ℚ × ℚ :=
  (matrix.a11 * p.1 + matrix.a12 * p.2 + matrix.b1,
   matrix.a21 * p.1 + matrix.a22 * p.2 + matrix.b2)

/-- From `src/js/affine.js`, `chooseMap(maps)`: the cumulative-probability
scan (`acc += m.prob; if (r <= acc) return m`). -/
def chooseMapGo : List AffineMapJS → ℚ → ℚ → Option AffineMapJS
  | [], _, _ => none
  | m :: ms, r, acc =>
    if r ≤ acc + m.prob then some m else chooseMapGo ms r (acc + m.prob)

/-- From `src/js/affine.js`, `chooseMap(maps)` with the `Math.random()` value
`r` explicit: the scan with the last map as fallback for rounding
(`return maps[maps.length - 1]`).  On the empty list the JS code would fault
on `undefined`; the model returns a zero map (unused by the claims). -/
def chooseMap (maps : List AffineMapJS) (r : ℚ) : AffineMapJS :=
  (chooseMapGo maps r 0).getD (maps.getLastD ⟨0, 0, 0, 0, 0, 0, 0⟩)

/-- From `src/js/affine.js`, `generateAffineFractal`: the
`for (i = 0; i < n; i++)` loop — draw a map, apply it, append the point.
`i` is the position in the random stream. -/
def affineGo (maps : List AffineMapJS) (rand : ℕ → ℚ) :
    ℕ → ℕ → ℚ × ℚ → List (ℚ × ℚ)
  | 0, _, _ => []
  | n + 1, i, p =>
    let p' := applyAffine p (chooseMap maps (rand i))
    p' :: affineGo maps rand n (i + 1) p'

/-- From `src/js/affine.js`, `generateAffineFractal(maps, n, x0, y0)`. -/
def generateAffineFractal (maps : List AffineMapJS) (n : ℕ) (x0 y0 : ℚ)
    (rand : ℕ → ℚ) : List (ℚ × ℚ) :=
  affineGo maps rand n 0 (x0, y0)

/-- From `src/js/affine.js`, `examples['Shrinking Square']`:
the single map `a11 = a22 = 0.5`, `a12 = a21 = 0`, `b = 0`, probability 1. -/
def shrinkingSquare : List AffineMapJS :=
  [⟨1/2, 0, 0, 1/2, 0, 0, 1⟩]

/-- Squared euclidean norm of a 2D point. -/
def normSq (p : ℚ × ℚ) : ℚ :=
  p.1 * p.1 + p.2 * p.2

/- ============================================================
   Menger sponge (src/js/3DFractals.js).
   ============================================================ -/

/-- From `src/js/3DFractals.js`, `generateMenger`: the triple loop
`for dx of [-1,0,1] for dy of [-1,0,1] for dz of [-1,0,1]`, in source
iteration order. -/
def mengerOffsets : List V3 :=
  ([-1, 0, 1] : List ℚ).flatMap (fun dx =>
    ([-1, 0, 1] : List ℚ).flatMap (fun dy =>
      ([-1, 0, 1] : List ℚ).map (fun dz => (dx, dy, dz))))

/-- From `src/js/3DFractals.js`, `generateMenger`: a sub-cube is kept unless
at least two of its offset coordinates are zero
(`zeros = [dx,dy,dz].filter(v => v === 0).length; if (zeros >= 2) continue`). -/
def mengerKeep (o : V3) : Bool :=
  decide (([o.1, o.2.1, o.2.2].filter (fun v => decide (v = 0))).length < 2)

/-- From `src/js/3DFractals.js`, `generateMenger(level, center, size)`:
level 0 returns the cube centre; otherwise recurse into the kept 20 of the
27 sub-cubes with `step = size / 3`. -/
def generateMenger : ℕ → V3 → ℚ → List V3
  | 0, center, _ => [center]
  | level + 1, center, size =>
    let step := size / 3
    (mengerOffsets.filter mengerKeep).flatMap (fun o =>
      generateMenger level
        (center.1 + o.1 * step, center.2.1 + o.2.1 * step,
         center.2.2 + o.2.2 * step) step)

/- ============================================================
   A JS-number model with non-finite values
   (used by src/js/3DFractals.js and src/unnamed/part_001).
   ============================================================ -/

/-- JS numbers for the code paths that branch on non-finiteness: `some q` is
a finite value (idealised as an exact rational), `none` is a non-finite
value (`NaN` or `±Infinity` — the modelled code only ever compares
non-finite values with `<`/`>`, which IEEE makes `false` for `NaN`, or tests
them with `isFinite`, so the two kinds need not be distinguished except for
division, see `divF`). -/
abbrev JsF : Type := Option ℚ

/-- JS addition: non-finite operands propagate. -/
def addF : JsF → JsF → JsF
  | some a, some b => some (a + b)
  | _, _ => none

/-- JS subtraction: non-finite operands propagate. -/
def subF : JsF → JsF → JsF
  | some a, some b => some (a - b)
  | _, _ => none

/-- JS multiplication: non-finite operands propagate (in particular
`0 * NaN = NaN`). -/
def mulF : JsF → JsF → JsF
  | some a, some b => some (a * b)
  | _, _ => none

/-- JS division: non-finite operands propagate, and division by zero gives a
non-finite result (`0/0 = NaN`, `x/0 = ±Infinity`). -/
def divF : JsF → JsF → JsF
  | some a, some b => if b = 0 then none else some (a / b)
  | _, _ => none

/-- The JS comparison `v > q` for a finite literal `q`: `false` whenever `v`
is `NaN`.  (The modelled generators only reach this comparison with finite
or `NaN` values: their iterates stay bounded by the bailout while finite.) -/
def gtF (v : JsF) (q : ℚ) : Bool :=
  match v with
  | none => false
  | some a => decide (q < a)

/-- The JS comparison `v < q` for a finite literal `q`: `false` whenever `v`
is non-finite. -/
def ltF (v : JsF) (q : ℚ) : Bool :=
  match v with
  | none => false
  | some a => decide (a < q)

/- ============================================================
   3D escape-time generators (src/js/3DFractals.js).
   ============================================================ -/

/-- The `Math` functions used by the 3D generators.  They have no exact
rational counterpart, so they are parameters of the model; theorems
constrain them only at arguments where the IEEE double result is exact
(e.g. `sqrt 0 = 0`, `acos NaN = NaN`). -/
structure Math3D where
  sqrtF : JsF → JsF
  acosF : JsF → JsF
  sinF : JsF → JsF
  cosF : JsF → JsF
  atan2F : JsF → JsF → JsF
  powF : JsF → JsF → JsF

/-- From `src/js/3DFractals.js`, `generateMandelbulb`: the inner
`for (n = 0; n < iterations; n++)` loop for one seed `(x, y, z)` (which is
also the added constant `c`).  Returns the `escaped` flag: `true` iff some
iterate had `r > bailout`. -/
def mandelbulbLoop (M : Math3D) (power bailout : ℚ) (x y z : ℚ) :
    ℕ → JsF → JsF → JsF → Bool
  | 0, _, _, _ => false
  | n + 1, zx, zy, zz =>
    let r := M.sqrtF (addF (addF (mulF zx zx) (mulF zy zy)) (mulF zz zz))
    if gtF r bailout then true
    else
      let theta := mulF (M.acosF (divF zz r)) (some power)
      let phi := mulF (M.atan2F zy zx) (some power)
      let rn := M.powF r (some power)
      mandelbulbLoop M power bailout x y z n
        (addF (mulF (mulF rn (M.sinF theta)) (M.cosF phi)) (some x))
        (addF (mulF (mulF rn (M.sinF theta)) (M.sinF phi)) (some y))
        (addF (mulF rn (M.cosF theta)) (some z))

/-- From `src/js/3DFractals.js`, `generateMandelbulb(iterations, power,
bailout, density)` with the random seed points passed explicitly: a seed is
retained (`result.push([x, y, z])`) exactly when its trajectory never
escaped within the iteration budget. -/
def generateMandelbulb (M : Math3D) (iterations : ℕ) (power bailout : ℚ)
    (seeds : List V3) : List V3 :=
  seeds.filter (fun s =>
    !(mandelbulbLoop M power bailout s.1 s.2.1 s.2.2 iterations
      (some s.1) (some s.2.1) (some s.2.2)))

/-- From `src/js/3DFractals.js`, `generateJulia3D`: the inner iteration loop
for one seed, with the fixed added constant `c`.  Returns the `escaped` flag
together with the final iterate `(zx, zy, zz)` (which is what the source
pushes for retained seeds). -/
def julia3DLoop (M : Math3D) (power bailout : ℚ) (c : V3) :
    ℕ → JsF → JsF → JsF → Bool × (JsF × JsF × JsF)
  | 0, zx, zy, zz => (false, (zx, zy, zz))
  | n + 1, zx, zy, zz =>
    let r := M.sqrtF (addF (addF (mulF zx zx) (mulF zy zy)) (mulF zz zz))
    if gtF r bailout then (true, (zx, zy, zz))
    else
      let theta := mulF (M.acosF (divF zz r)) (some power)
      let phi := mulF (M.atan2F zy zx) (some power)
      let rn := M.powF r (some power)
      julia3DLoop M power bailout c n
        (addF (mulF (mulF rn (M.sinF theta)) (M.cosF phi)) (some c.1))
        (addF (mulF (mulF rn (M.sinF theta)) (M.sinF phi)) (some c.2.1))
        (addF (mulF rn (M.cosF theta)) (some c.2.2))

/-- From `src/js/3DFractals.js`, `generateJulia3D(iterations, power, bailout,
density, c)` with the random seed points passed explicitly: for each
non-escaping seed the final iterate `[zx, zy, zz]` is pushed. -/
def generateJulia3D (M : Math3D) (iterations : ℕ) (power bailout : ℚ)
    (seeds : List V3) (c : V3) : List (JsF × JsF × JsF) :=
  seeds.filterMap (fun s =>
    let res := julia3DLoop M power bailout c iterations
      (some s.1) (some s.2.1) (some s.2.2)
    if res.1 then none else some res.2)

/-- A concrete instance of the `Math` functions: exact where the run of the
counterexample consults them (`sqrt 0 = 0`, `sin 0 = 0`, `cos 0 = 1`,
`atan2 0 0 = 0`, `pow 0 p = 0`, and every function maps non-finite to
non-finite), `none` elsewhere (those values are never consulted by the
counterexample's run). -/
def mathConc : Math3D where
  sqrtF := fun v => v.bind (fun q => if q = 0 then some 0 else none)
  acosF := fun v => v.bind (fun _ => none)
  sinF := fun v => v.bind (fun q => if q = 0 then some 0 else none)
  cosF := fun v => v.bind (fun q => if q = 0 then some 1 else none)
  atan2F := fun a b =>
    match a, b with
    | some p, some q => if p = 0 ∧ q = 0 then some 0 else none
    | _, _ => none
  powF := fun a b =>
    match a, b with
    | some p, some _ => if p = 0 then some 0 else none
    | _, _ => none

/- ============================================================
   Newton fractal (src/unnamed/part_001).
   ============================================================ -/

namespace Newton

/-- Complex values of `src/unnamed/part_001` (`{r, i}` pairs), over the
JS-number model. -/
abbrev CF : Type := JsF × JsF

/-- From `src/unnamed/part_001`, `cAdd`. -/
def cAdd (a b : CF) : CF :=
  (addF a.1 b.1, addF a.2 b.2)

/-- From `src/unnamed/part_001`, `cSub`. -/
def cSub (a b : CF) : CF :=
  (subF a.1 b.1, subF a.2 b.2)

/-- From `src/unnamed/part_001`, `cMul`. -/
def cMul (a b : CF) : CF :=
  (subF (mulF a.1 b.1) (mulF a.2 b.2), addF (mulF a.1 b.2) (mulF a.2 b.1))

/-- From `src/unnamed/part_001`, `cDiv`: when the denominator
`b.r² + b.i²` is (exactly) zero the source returns `{Infinity, Infinity}`,
a non-finite value. -/
def cDiv (a b : CF) : CF :=
  let den := addF (mulF b.1 b.1) (mulF b.2 b.2)
  if den = some 0 then (none, none)
  else
    (divF (addF (mulF a.1 b.1) (mulF a.2 b.2)) den,
     divF (subF (mulF a.2 b.1) (mulF a.1 b.2)) den)

/-- From `src/unnamed/part_001`, `cAbs(a) = Math.hypot(a.r, a.i)`
(`= sqrt(a.r² + a.i²)`); the square-root implementation is the parameter
`sq`. -/
def cAbs (sq : JsF → JsF) (a : CF) : JsF :=
  sq (addF (mulF a.1 a.1) (mulF a.2 a.2))

/-- From `src/unnamed/part_001`, `cScale(a, s)` (`s` a plain number). -/
def cScale (a : CF) (s : ℚ) : CF :=
  (mulF a.1 (some s), mulF a.2 (some s))

/-- From `src/unnamed/part_001`, `cSqr`. -/
def cSqr (a : CF) : CF :=
  cMul a a

/-- From `src/unnamed/part_001`, `cCube`. -/
def cCube (a : CF) : CF :=
  cMul (cMul a a) a

/-- From `src/unnamed/part_001`, `f(z, k) = z³ + (k-1)·z - k`. -/
def f (z k : CF) : CF :=
  cSub (cAdd (cCube z) (cMul (subF k.1 (some 1), k.2) z)) k

/-- From `src/unnamed/part_001`, `derivF(z, k) = 3·z² + (k-1)`. -/
def derivF (z k : CF) : CF :=
  cAdd (cScale (cSqr z) 3) (subF k.1 (some 1), k.2)

/-- The guard `!isFinite(dfzAbs) || dfzAbs === 0` of `newtonConverge`:
non-finite magnitudes are `none` in the model. -/
def badMag : JsF → Bool
  | none => true
  | some q => decide (q = 0)

/-- From `src/unnamed/part_001`, `classifyRoot(z, roots, tol)`: linear scan
for a known root within distance `tol`; otherwise push `z` and return the
new index.  Returns the index together with the (possibly grown)
registry. -/
def classifyRoot (sq : JsF → JsF) (z : CF) (tol : ℚ) (roots : List CF) :
    ℕ × List CF :=
  match roots.findIdx? (fun w => ltF (cAbs sq (cSub z w)) tol) with
  | some i => (i, roots)
  | none => (roots.length, roots ++ [z])

/-- The result record of `newtonConverge` (`{hit, idx, iter}`). -/
structure NewtonRes where
  hit : Bool
  idx : ℤ
  iter : ℕ
deriving DecidableEq

/-- From `src/unnamed/part_001`, `newtonConverge`: the
`for (iter = 0; iter < maxIter; iter++)` loop.  Per round: compute `f(z)`
and `f'(z)`; if the derivative magnitude is zero or non-finite, `break` (the
function then returns the sentinel `{hit: false, idx: -1, iter: maxIter}`);
otherwise take the Newton step, and if `|f(z)| < tol` classify the root and
return `{hit: true, idx, iter}`.  The registry is returned alongside the
result (the source mutates the `roots` array in place). -/
def newtonLoop (sq : JsF → JsF) (k : CF) (tol : ℚ) (maxIter : ℕ) :
    CF → List CF → ℕ → ℕ → NewtonRes × List CF
  | _, roots, _, 0 => (⟨false, -1, maxIter⟩, roots)
  | z, roots, iter, fuel + 1 =>
    let fz := f z k
    let dfz := derivF z k
    if badMag (cAbs sq dfz) then (⟨false, -1, maxIter⟩, roots)
    else
      let z' := cSub z (cDiv fz dfz)
      if ltF (cAbs sq fz) tol then
        let cr := classifyRoot sq z' tol roots
        (⟨true, (cr.1 : ℤ), iter⟩, cr.2)
      else newtonLoop sq k tol maxIter z' roots (iter + 1) fuel

/-- From `src/unnamed/part_001`, `newtonConverge(z0, k, maxIter, tol,
roots)`. -/
def newtonConverge (sq : JsF → JsF) (z0 k : CF) (maxIter : ℕ) (tol : ℚ)
    (roots : List CF) : NewtonRes × List CF :=
  newtonLoop sq k tol maxIter z0 roots 0 maxIter

/-- The trajectory predicate of claim C7: the Newton iteration from `z`
encounters a zero or non-finite derivative magnitude (the `break` guard)
strictly before any convergence return, within the given fuel. -/
def encountersBad (sq : JsF → JsF) (k : CF) (tol : ℚ) : CF → ℕ → Bool
  | _, 0 => false
  | z, fuel + 1 =>
    if badMag (cAbs sq (derivF z k)) then true
    else if ltF (cAbs sq (f z k)) tol then false
    else encountersBad sq k tol (cSub z (cDiv (f z k) (derivF z k))) fuel

end Newton

/- ============================================================
   Theorems for C1 and C2.
   ============================================================ -/

theorem juliaLoop_eq_fractalLoop (cx cy : ℚ) :
    ∀ (rem : ℕ) (x y : ℚ) (iter : ℕ),
      juliaLoop cx cy x y iter rem = fractalLoop cx cy x y iter rem := by
  intro rem
  induction rem with
  | zero => intro x y iter; rfl
  | succ n ih =>
    intro x y iter
    rw [juliaLoop, fractalLoop]
    split
    · exact ih _ _ _
    · rfl

theorem mandelbrotLoop_eq_fractalLoop (cx cy : ℚ) :
    ∀ (rem : ℕ) (x y : ℚ) (iter : ℕ),
      mandelbrotLoop cx cy x y iter rem = fractalLoop cx cy x y iter rem := by
  intro rem
  induction rem with
  | zero => intro x y iter; rfl
  | succ n ih =>
    intro x y iter
    rw [mandelbrotLoop, fractalLoop]
    split
    · exact ih _ _ _
    · rfl

/-- **C1.** The Julia-mode and Mandelbrot-mode escape computations run the
identical step `z ← z² + c` with the identical bailout `|z|² > 4`: the
per-pixel loop of `drawFractal` agrees with `mandelbrotEscape` in
`mandelbrot` mode and with `juliaEscape` in `julia` mode, and consequently
the Julia-family computation with `p` swapped into the role of the additive
constant and `z₀ = 0` returns exactly the Mandelbrot-family escape count of
`p`, for every fixed iteration budget. -/
theorem julia_mandelbrot_shared_core (pre pim kre kim : ℚ) (maxIter : ℕ) :
    juliaEscape 0 0 pre pim maxIter = mandelbrotEscape pre pim maxIter ∧
    drawFractalIter .julia pre pim kre kim maxIter
      = juliaEscape pre pim kre kim maxIter ∧
    drawFractalIter .mandelbrot pre pim kre kim maxIter
      = mandelbrotEscape pre pim maxIter := by
  refine ⟨?_, ?_, ?_⟩
  · rw [juliaEscape, mandelbrotEscape, juliaLoop_eq_fractalLoop,
      mandelbrotLoop_eq_fractalLoop]
  · rw [juliaEscape, drawFractalIter, juliaLoop_eq_fractalLoop]
  · rw [mandelbrotEscape, drawFractalIter, mandelbrotLoop_eq_fractalLoop]

theorem mandelbrotLoop_zero (rem iter : ℕ) :
    mandelbrotLoop 0 0 0 0 iter rem = iter + rem := by
  induction rem generalizing iter with
  | zero => rfl
  | succ n ih =>
    rw [mandelbrotLoop]
    norm_num
    rw [ih]
    omega

/-- **C2.** For every `maxIter`, the Mandelbrot escape computation at the
point `(0,0)` returns exactly `maxIter` (the point never escapes), and at the
point `(2,2)` it returns an iteration count of at most 2 (the point escapes
within 2 iterations). -/
theorem mandelbrot_origin_and_two_two (maxIter : ℕ) :
    mandelbrotEscape 0 0 maxIter = maxIter ∧
    mandelbrotEscape 2 2 maxIter ≤ 2 := by
  constructor
  · rw [mandelbrotEscape, mandelbrotLoop_zero]
    omega
  · match maxIter with
    | 0 => exact Nat.zero_le 2
    | n + 1 =>
      rw [mandelbrotEscape, mandelbrotLoop]
      norm_num
      match n with
      | 0 =>
        rw [mandelbrotLoop]
        omega
      | m + 1 =>
        rw [mandelbrotLoop]
        norm_num

/- ============================================================
   Theorems for C3.
   ============================================================ -/

theorem retryGo_spec (cons : Constraints) (sq : ℚ → ℚ) (targets : List V3)
    (p : V3) (last : ℤ) (r : ℕ → ℚ) :
    ∀ (k c : ℕ),
      (retryGo cons sq targets p last r (k + 1) c).2.1 ≤ c + (k + 1) ∧
      c < (retryGo cons sq targets p last r (k + 1) c).2.1 ∧
      ((retryGo cons sq targets p last r (k + 1) c).2.2 = false →
        (retryGo cons sq targets p last r (k + 1) c).1
          = drawIdx targets.length r (c + k) ∧
        ∀ j < k + 1,
          acceptDraw cons sq targets p last (drawIdx targets.length r (c + j))
            = false) := by
  intro k
  induction k with
  | zero =>
    intro c
    rw [retryGo]
    split
    · dsimp only
      refine ⟨by omega, by omega, ?_⟩
      intro h
      simp at h
    · rw [if_pos rfl]
      refine ⟨by dsimp only; omega, by dsimp only; omega, ?_⟩
      intro _
      refine ⟨by simp, ?_⟩
      intro j hj
      interval_cases j
      · simpa using ‹¬ acceptDraw cons sq targets p last
          (drawIdx targets.length r c) = true›
  | succ k ih =>
    intro c
    rw [retryGo]
    split
    · dsimp only
      refine ⟨by omega, by omega, ?_⟩
      intro h
      simp at h
    · rw [if_neg (by omega)]
      obtain ⟨h1, h2, h3⟩ := ih (c + 1)
      refine ⟨by omega, by omega, ?_⟩
      intro hfound
      obtain ⟨hidx, hrej⟩ := h3 hfound
      refine ⟨by rw [hidx]; ring_nf, ?_⟩
      intro j hj
      match j with
      | 0 =>
        simpa using ‹¬ acceptDraw cons sq targets p last
          (drawIdx targets.length r c) = true›
      | j' + 1 =>
        have := hrej j' (by omega)
        rw [show c + (j' + 1) = c + 1 + j' by omega]
        exact this

theorem retryGo_found_accept (cons : Constraints) (sq : ℚ → ℚ)
    (targets : List V3) (p : V3) (last : ℤ) (r : ℕ → ℚ) :
    ∀ (k c : ℕ),
      (retryGo cons sq targets p last r k c).2.2 = true →
      acceptDraw cons sq targets p last
        (retryGo cons sq targets p last r k c).1 = true := by
  intro k
  induction k with
  | zero =>
    intro c h
    simp [retryGo] at h
  | succ k ih =>
    intro c
    rw [retryGo]
    split
    · intro _
      simpa using ‹acceptDraw cons sq targets p last
        (drawIdx targets.length r c) = true›
    · split
      · intro h
        simp at h
      · exact ih (c + 1)

theorem acceptDraw_noRepeat (sq : ℚ → ℚ) (targets : List V3) (p : V3)
    (last : ℤ) (idx : ℕ) (b : Bool)
    (h : acceptDraw ⟨true, b⟩ sq targets p last idx = true) :
    (idx : ℤ) ≠ last := by
  intro heq
  simp [acceptDraw, heq] at h

theorem chaosSteps_head_ne (sq : ℚ → ℚ) (targets : List V3) (lambda : ℚ)
    (r : ℕ → ℚ) (b : Bool) :
    ∀ (iters : ℕ) (p : V3) (last : ℤ) (c : ℕ) (st : ChaosStep),
      st ∈ (chaosSteps ⟨true, b⟩ sq targets lambda r iters p last c).head? →
      st.found = true → (st.idx : ℤ) ≠ last := by
  intro iters p last c st hmem hfound
  match iters with
  | 0 => simp [chaosSteps] at hmem
  | i + 1 =>
    rw [chaosSteps] at hmem
    simp only [List.head?_cons, Option.mem_def, Option.some.injEq] at hmem
    subst hmem
    simp only at hfound
    have hacc := retryGo_found_accept ⟨true, b⟩ sq targets p last r 20 c hfound
    exact acceptDraw_noRepeat sq targets p last _ b hacc

theorem chaosSteps_chain' (sq : ℚ → ℚ) (targets : List V3) (lambda : ℚ)
    (r : ℕ → ℚ) (b : Bool) :
    ∀ (iters : ℕ) (p : V3) (last : ℤ) (c : ℕ),
      List.Chain' (fun a b' => b'.found = true → b'.idx ≠ a.idx)
        (chaosSteps ⟨true, b⟩ sq targets lambda r iters p last c) := by
  intro iters
  induction iters with
  | zero =>
    intro p last c
    simp [chaosSteps]
  | succ i ih =>
    intro p last c
    rw [chaosSteps]
    rw [List.chain'_cons']
    constructor
    · intro y hy hfound
      have := chaosSteps_head_ne sq targets lambda r b i _ _ _ y hy hfound
      intro hidx
      exact this (by exact_mod_cast congrArg (Nat.cast : ℕ → ℤ) hidx)
    · exact ih _ _ _

/-- **C3.** In the constrained chaos game each step retries a rejected draw
for at most 20 attempts (the random-stream position advances by at least 1
and at most 20 per step), and if no acceptable draw is found within the cap
the step accepts the last (20th) attempted draw anyway, all 20 draws having
been rejected; consequently with `noRepeat = true` (and either `noOppFace`
setting), whenever a step's draw is accepted within the cap, its emitted
target index differs from the immediately previous emitted index. -/
theorem chaos_retry_cap_and_noRepeat :
    (∀ (cons : Constraints) (sq : ℚ → ℚ) (targets : List V3) (p : V3)
        (last : ℤ) (r : ℕ → ℚ) (c : ℕ),
      (retryGo cons sq targets p last r 20 c).2.1 ≤ c + 20 ∧
      c < (retryGo cons sq targets p last r 20 c).2.1 ∧
      ((retryGo cons sq targets p last r 20 c).2.2 = false →
        (retryGo cons sq targets p last r 20 c).1
          = drawIdx targets.length r (c + 19) ∧
        ∀ j < 20,
          acceptDraw cons sq targets p last (drawIdx targets.length r (c + j))
            = false)) ∧
    (∀ (b : Bool) (sq : ℚ → ℚ) (targets : List V3) (lambda : ℚ) (r : ℕ → ℚ)
        (iters : ℕ) (p : V3) (last : ℤ) (c : ℕ),
      List.Chain' (fun a b' => b'.found = true → b'.idx ≠ a.idx)
        (chaosSteps ⟨true, b⟩ sq targets lambda r iters p last c)) := by
  constructor
  · intro cons sq targets p last r c
    exact retryGo_spec cons sq targets p last r 19 c
  · intro b sq targets lambda r iters p last c
    exact chaosSteps_chain' sq targets lambda r b iters p last c

theorem chaos_retry_cap_and_noRepeat_witness :
    (retryGo ⟨true, false⟩ (fun q => q) [((1 : ℚ), 0, 0)] ((0 : ℚ), 0, 0) 0
        (fun _ => (0 : ℚ)) 20 0).1
      = drawIdx 1 (fun _ => (0 : ℚ)) 19 ∧
    List.Chain' (fun a b' => b'.found = true → b'.idx ≠ a.idx)
      (chaosSteps ⟨true, false⟩ (fun q => q) [((1 : ℚ), 0, 0)] (1/2)
        (fun _ => (0 : ℚ)) 2 ((0 : ℚ), 0, 0) (-1) 0) := by
  constructor
  · have h := (chaos_retry_cap_and_noRepeat.1 ⟨true, false⟩ (fun q => q)
      [((1 : ℚ), 0, 0)] ((0 : ℚ), 0, 0) 0 (fun _ => (0 : ℚ)) 0).2.2
    have hflag : (retryGo ⟨true, false⟩ (fun q => q) [((1 : ℚ), 0, 0)]
        ((0 : ℚ), 0, 0) 0 (fun _ => (0 : ℚ)) 20 0).2.2 = false := by
      norm_num [retryGo, drawIdx, acceptDraw]
    simpa using (h hflag).1
  · exact chaos_retry_cap_and_noRepeat.2 false (fun q => q) [((1 : ℚ), 0, 0)]
      (1/2) (fun _ => (0 : ℚ)) 2 ((0 : ℚ), 0, 0) (-1) 0

/- ============================================================
   Theorems for C4.
   ============================================================ -/

theorem hilbertRot_lt (s x y rx ry : ℕ) (hx : x < s) (hy : y < s) :
    (hilbertRot s x y rx ry).1 < s ∧ (hilbertRot s x y rx ry).2 < s := by
  rw [hilbertRot]
  split
  · split
    · exact ⟨by omega, by omega⟩
    · exact ⟨hy, hx⟩
  · exact ⟨hx, hy⟩

theorem hilbertRot_inj (s x₁ y₁ x₂ y₂ rx ry : ℕ)
    (hx₁ : x₁ < s) (hy₁ : y₁ < s) (hx₂ : x₂ < s) (hy₂ : y₂ < s)
    (h : hilbertRot s x₁ y₁ rx ry = hilbertRot s x₂ y₂ rx ry) :
    x₁ = x₂ ∧ y₁ = y₂ := by
  rw [hilbertRot, hilbertRot] at h
  split at h <;> [skip; skip] <;> first
    | (split at h <;>
        · rw [Prod.mk.injEq] at h
          omega)
    | (rw [Prod.mk.injEq] at h
       omega)

theorem hilbertGo_lt :
    ∀ (fuel s t x y : ℕ), x < s → y < s →
      (hilbertGo fuel s t x y).1 < 2 ^ fuel * s ∧
      (hilbertGo fuel s t x y).2 < 2 ^ fuel * s := by
  intro fuel
  induction fuel with
  | zero =>
    intro s t x y hx hy
    rw [hilbertGo]
    simpa using ⟨hx, hy⟩
  | succ fuel ih =>
    intro s t x y hx hy
    rw [hilbertGo]
    have hrx : (t >>> 1) &&& 1 ≤ 1 := Nat.and_le_right
    have hry : (t ^^^ ((t >>> 1) &&& 1)) &&& 1 ≤ 1 := Nat.and_le_right
    obtain ⟨hp1, hp2⟩ := hilbertRot_lt s x y ((t >>> 1) &&& 1)
      ((t ^^^ ((t >>> 1) &&& 1)) &&& 1) hx hy
    have h1 := ih (2 * s) (t / 4)
      ((hilbertRot s x y ((t >>> 1) &&& 1) ((t ^^^ ((t >>> 1) &&& 1)) &&& 1)).1
        + s * ((t >>> 1) &&& 1))
      ((hilbertRot s x y ((t >>> 1) &&& 1) ((t ^^^ ((t >>> 1) &&& 1)) &&& 1)).2
        + s * ((t ^^^ ((t >>> 1) &&& 1)) &&& 1))
      (by nlinarith) (by nlinarith)
    have heq : 2 ^ (fuel + 1) * s = 2 ^ fuel * (2 * s) := by ring
    rw [heq]
    exact h1

theorem hilbert_rx_eq (t : ℕ) : (t >>> 1) &&& 1 = t / 2 % 2 := by
  rw [Nat.shiftRight_eq_div_pow, Nat.and_one_is_mod, pow_one]

theorem hilbert_ry_eq (t : ℕ) :
    (t ^^^ ((t >>> 1) &&& 1)) &&& 1 = (t + t / 2 % 2) % 2 := by
  rw [Nat.and_one_is_mod, Nat.xor_mod_two_eq, hilbert_rx_eq]

theorem addBit_inj (s a b u v : ℕ) (ha : a < s) (hb : b < s)
    (hu : u ≤ 1) (hv : v ≤ 1) (h : a + s * u = b + s * v) :
    u = v ∧ a = b := by
  interval_cases u <;> interval_cases v <;> omega

theorem hilbertGo_inj :
    ∀ (fuel s : ℕ), 0 < s → ∀ (t₁ t₂ x₁ y₁ x₂ y₂ : ℕ),
      t₁ < 4 ^ fuel → t₂ < 4 ^ fuel →
      x₁ < s → y₁ < s → x₂ < s → y₂ < s →
      hilbertGo fuel s t₁ x₁ y₁ = hilbertGo fuel s t₂ x₂ y₂ →
      t₁ = t₂ ∧ x₁ = x₂ ∧ y₁ = y₂ := by
  intro fuel
  induction fuel with
  | zero =>
    intro s hs t₁ t₂ x₁ y₁ x₂ y₂ ht₁ ht₂ hx₁ hy₁ hx₂ hy₂ h
    rw [hilbertGo, hilbertGo, Prod.mk.injEq] at h
    refine ⟨by omega, h⟩
  | succ fuel ih =>
    intro s hs t₁ t₂ x₁ y₁ x₂ y₂ ht₁ ht₂ hx₁ hy₁ hx₂ hy₂ h
    have hrx₁ : (t₁ >>> 1) &&& 1 ≤ 1 := Nat.and_le_right
    have hrx₂ : (t₂ >>> 1) &&& 1 ≤ 1 := Nat.and_le_right
    have hry₁ : (t₁ ^^^ ((t₁ >>> 1) &&& 1)) &&& 1 ≤ 1 := Nat.and_le_right
    have hry₂ : (t₂ ^^^ ((t₂ >>> 1) &&& 1)) &&& 1 ≤ 1 := Nat.and_le_right
    obtain ⟨hp11, hp12⟩ := hilbertRot_lt s x₁ y₁ ((t₁ >>> 1) &&& 1)
      ((t₁ ^^^ ((t₁ >>> 1) &&& 1)) &&& 1) hx₁ hy₁
    obtain ⟨hp21, hp22⟩ := hilbertRot_lt s x₂ y₂ ((t₂ >>> 1) &&& 1)
      ((t₂ ^^^ ((t₂ >>> 1) &&& 1)) &&& 1) hx₂ hy₂
    have h4 : (0:ℕ) < 4 := by norm_num
    have ht₁' : t₁ / 4 < 4 ^ fuel := by
      rw [Nat.div_lt_iff_lt_mul h4]
      calc t₁ < 4 ^ (fuel + 1) := ht₁
        _ = 4 ^ fuel * 4 := by ring
    have ht₂' : t₂ / 4 < 4 ^ fuel := by
      rw [Nat.div_lt_iff_lt_mul h4]
      calc t₂ < 4 ^ (fuel + 1) := ht₂
        _ = 4 ^ fuel * 4 := by ring
    have hm₁ : s * ((t₁ >>> 1) &&& 1) ≤ s * 1 := Nat.mul_le_mul_left s hrx₁
    have hm₂ : s * ((t₂ >>> 1) &&& 1) ≤ s * 1 := Nat.mul_le_mul_left s hrx₂
    have hn₁ : s * ((t₁ ^^^ ((t₁ >>> 1) &&& 1)) &&& 1) ≤ s * 1 :=
      Nat.mul_le_mul_left s hry₁
    have hn₂ : s * ((t₂ ^^^ ((t₂ >>> 1) &&& 1)) &&& 1) ≤ s * 1 :=
      Nat.mul_le_mul_left s hry₂
    replace h : hilbertGo fuel (2 * s) (t₁ / 4)
        ((hilbertRot s x₁ y₁ ((t₁ >>> 1) &&& 1)
            ((t₁ ^^^ ((t₁ >>> 1) &&& 1)) &&& 1)).1 + s * ((t₁ >>> 1) &&& 1))
        ((hilbertRot s x₁ y₁ ((t₁ >>> 1) &&& 1)
            ((t₁ ^^^ ((t₁ >>> 1) &&& 1)) &&& 1)).2
          + s * ((t₁ ^^^ ((t₁ >>> 1) &&& 1)) &&& 1))
      = hilbertGo fuel (2 * s) (t₂ / 4)
        ((hilbertRot s x₂ y₂ ((t₂ >>> 1) &&& 1)
            ((t₂ ^^^ ((t₂ >>> 1) &&& 1)) &&& 1)).1 + s * ((t₂ >>> 1) &&& 1))
        ((hilbertRot s x₂ y₂ ((t₂ >>> 1) &&& 1)
            ((t₂ ^^^ ((t₂ >>> 1) &&& 1)) &&& 1)).2
          + s * ((t₂ ^^^ ((t₂ >>> 1) &&& 1)) &&& 1)) := h
    obtain ⟨htq, hax, hay⟩ := ih (2 * s) (by omega) (t₁ / 4) (t₂ / 4)
      ((hilbertRot s x₁ y₁ ((t₁ >>> 1) &&& 1)
          ((t₁ ^^^ ((t₁ >>> 1) &&& 1)) &&& 1)).1 + s * ((t₁ >>> 1) &&& 1))
      ((hilbertRot s x₁ y₁ ((t₁ >>> 1) &&& 1)
          ((t₁ ^^^ ((t₁ >>> 1) &&& 1)) &&& 1)).2
        + s * ((t₁ ^^^ ((t₁ >>> 1) &&& 1)) &&& 1))
      ((hilbertRot s x₂ y₂ ((t₂ >>> 1) &&& 1)
          ((t₂ ^^^ ((t₂ >>> 1) &&& 1)) &&& 1)).1 + s * ((t₂ >>> 1) &&& 1))
      ((hilbertRot s x₂ y₂ ((t₂ >>> 1) &&& 1)
          ((t₂ ^^^ ((t₂ >>> 1) &&& 1)) &&& 1)).2
        + s * ((t₂ ^^^ ((t₂ >>> 1) &&& 1)) &&& 1))
      ht₁' ht₂' (by omega) (by omega) (by omega) (by omega) h
    obtain ⟨hrxeq, hp1eq⟩ := addBit_inj s
      (hilbertRot s x₁ y₁ ((t₁ >>> 1) &&& 1)
        ((t₁ ^^^ ((t₁ >>> 1) &&& 1)) &&& 1)).1
      (hilbertRot s x₂ y₂ ((t₂ >>> 1) &&& 1)
        ((t₂ ^^^ ((t₂ >>> 1) &&& 1)) &&& 1)).1
      ((t₁ >>> 1) &&& 1) ((t₂ >>> 1) &&& 1) hp11 hp21 hrx₁ hrx₂ hax
    obtain ⟨hryeq, hp2eq⟩ := addBit_inj s
      (hilbertRot s x₁ y₁ ((t₁ >>> 1) &&& 1)
        ((t₁ ^^^ ((t₁ >>> 1) &&& 1)) &&& 1)).2
      (hilbertRot s x₂ y₂ ((t₂ >>> 1) &&& 1)
        ((t₂ ^^^ ((t₂ >>> 1) &&& 1)) &&& 1)).2
      ((t₁ ^^^ ((t₁ >>> 1) &&& 1)) &&& 1) ((t₂ ^^^ ((t₂ >>> 1) &&& 1)) &&& 1)
      hp12 hp22 hry₁ hry₂ hay
    have hprod : hilbertRot s x₁ y₁ ((t₁ >>> 1) &&& 1)
          ((t₁ ^^^ ((t₁ >>> 1) &&& 1)) &&& 1)
        = hilbertRot s x₂ y₂ ((t₂ >>> 1) &&& 1)
          ((t₂ ^^^ ((t₂ >>> 1) &&& 1)) &&& 1) :=
      Prod.ext hp1eq hp2eq
    rw [hryeq, hrxeq] at hprod
    obtain ⟨hxx, hyy⟩ := hilbertRot_inj s x₁ y₁ x₂ y₂ ((t₂ >>> 1) &&& 1)
      ((t₂ ^^^ ((t₂ >>> 1) &&& 1)) &&& 1) hx₁ hy₁ hx₂ hy₂ hprod
    refine ⟨?_, hxx, hyy⟩
    have e₁ := hilbert_rx_eq t₁
    have e₂ := hilbert_rx_eq t₂
    have f₁ := hilbert_ry_eq t₁
    have f₂ := hilbert_ry_eq t₂
    omega

/-- **C4.** For every order `n ≥ 1` with `N = 2^n`, the Hilbert bit-form
decoder of `generateHilbert` maps each linear index `d < N²` to a coordinate
pair with both components in `[0, N)`, and the map is injective over
`[0, N²)` (hence a bijection onto the `N × N` grid). -/
theorem hilbert_bit_decoder_bijective (n : ℕ) (hn : 1 ≤ n) :
    (∀ d, d < 2 ^ n * 2 ^ n →
      (hilbertD2XY n d).1 < 2 ^ n ∧ (hilbertD2XY n d).2 < 2 ^ n) ∧
    (∀ d₁, d₁ < 2 ^ n * 2 ^ n → ∀ d₂, d₂ < 2 ^ n * 2 ^ n →
      hilbertD2XY n d₁ = hilbertD2XY n d₂ → d₁ = d₂) := by
  have h4 : (4 : ℕ) ^ n = 2 ^ n * 2 ^ n := by
    rw [show (4 : ℕ) = 2 * 2 from rfl, mul_pow]
  constructor
  · intro d _
    have := hilbertGo_lt n 1 d 0 0 (by omega) (by omega)
    simpa [hilbertD2XY] using this
  · intro d₁ hd₁ d₂ hd₂ h
    exact (hilbertGo_inj n 1 (by omega) d₁ d₂ 0 0 0 0
      (by omega) (by omega) (by omega) (by omega) (by omega) (by omega) h).1

theorem hilbert_bit_decoder_bijective_witness :
    (hilbertD2XY 1 2).1 < 2 ^ 1 ∧ (hilbertD2XY 1 2).2 < 2 ^ 1 :=
  (hilbert_bit_decoder_bijective 1 (by norm_num)).1 2 (by norm_num)

/- ============================================================
   Theorems for C5.
   ============================================================ -/

/-- **C5, counterexample.** The claim states that for depth `n = 1` the
Z-order enumerator visits the cells in the order
`(0,0), (1,0), (0,1), (1,1)`.  It does not: `generateZOrder` sends the even
bits of the index to `y` and the odd bits to `x`, so index 1 maps to `(0,1)`,
not `(1,0)`. -/
theorem zorder_depth1_claim_false :
    generateZOrderCells 1 ≠ [(0, 0), (1, 0), (0, 1), (1, 1)] := by
  decide

/-- **C5, amended.** For depth `n = 1` the Z-order enumerator visits the four
cells in index-ascending order as `(0,0), (0,1), (1,0), (1,1)`: the bits of
the linear index are interleaved with even bits going to `y` and odd bits
going to `x` (`x |= ((i >> (2*bit+1)) & 1) << bit`,
`y |= ((i >> (2*bit)) & 1) << bit`). -/
theorem zorder_depth1_visiting_order :
    generateZOrderCells 1 = [(0, 0), (0, 1), (1, 0), (1, 1)] := by
  decide

/- ============================================================
   Theorems for C8.
   ============================================================ -/

theorem lsysStep_count (rules : Char → Option (List Char)) (c : Char)
    (e : ℕ) (h1 : ((rules c).getD [c]).count c = e)
    (h2 : ∀ d, d ≠ c → ((rules d).getD [d]).count c = 0) :
    ∀ s : List Char, (lsysStep rules s).count c = e * s.count c := by
  intro s
  induction s with
  | nil => simp [lsysStep]
  | cons a s ih =>
    rw [lsysStep, List.flatMap_cons, List.count_append, ← lsysStep, ih,
      List.count_cons]
    by_cases hac : a = c
    · subst hac
      rw [h1]
      simp
      ring
    · rw [h2 a hac]
      simp [hac]

theorem generateLSystemString_count (rules : Char → Option (List Char))
    (c : Char) (e : ℕ) (h1 : ((rules c).getD [c]).count c = e)
    (h2 : ∀ d, d ≠ c → ((rules d).getD [d]).count c = 0) :
    ∀ (n : ℕ) (s : List Char),
      (generateLSystemString rules s n).count c = e ^ n * s.count c := by
  intro n
  induction n with
  | zero =>
    intro s
    simp [generateLSystemString]
  | succ n ih =>
    intro s
    rw [generateLSystemString, ih, lsysStep_count rules c e h1 h2]
    ring

/-- **C8.** The L-system rewrite applies all rules simultaneously to every
symbol `n` times, with symbols absent from the rule mapping passing through
unchanged; rewriting the axiom `"F"` under the single rule `F → "F+F"` for
2 iterations yields exactly `"F+F+F+F"` (4 move symbols), and the count of
a symbol multiplies by its per-symbol expansion factor at each iteration
(for any symbol whose own replacement contains it `e` times and which occurs
in no other symbol's replacement). -/
theorem lsystem_rewrite_f_plus_f :
    generateLSystemString ruleFPlusF ['F'] 2
      = ['F', '+', 'F', '+', 'F', '+', 'F'] ∧
    (generateLSystemString ruleFPlusF ['F'] 2).count 'F' = 4 ∧
    (∀ (rules : Char → Option (List Char)) (c : Char),
      rules c = none → lsysStep rules [c] = [c]) ∧
    (∀ (rules : Char → Option (List Char)) (c : Char) (e : ℕ),
      ((rules c).getD [c]).count c = e →
      (∀ d, d ≠ c → ((rules d).getD [d]).count c = 0) →
      ∀ (n : ℕ) (s : List Char),
        (generateLSystemString rules s n).count c = e ^ n * s.count c) := by
  refine ⟨by decide, by decide, ?_, ?_⟩
  · intro rules c h
    simp [lsysStep, h]
  · intro rules c e h1 h2 n s
    exact generateLSystemString_count rules c e h1 h2 n s

theorem lsystem_rewrite_f_plus_f_witness :
    ((ruleFPlusF 'F').getD ['F']).count 'F' = 2 ∧
    (generateLSystemString ruleFPlusF ['F'] 3).count 'F'
      = 2 ^ 3 * (['F'].count 'F') :=
  ⟨by decide,
    lsystem_rewrite_f_plus_f.2.2.2 ruleFPlusF 'F' 2 (by decide)
      (fun d h => by simp [ruleFPlusF, h, List.count_singleton]) 3 ['F']⟩

/- ============================================================
   Theorems for C10.
   ============================================================ -/

theorem mengerKept_length : (mengerOffsets.filter mengerKeep).length = 20 := by
  decide

theorem generateMenger_length :
    ∀ (level : ℕ) (center : V3) (size : ℚ),
      (generateMenger level center size).length = 20 ^ level := by
  intro level
  induction level with
  | zero =>
    intro center size
    simp [generateMenger]
  | succ level ih =>
    intro center size
    simp only [generateMenger, List.length_flatMap]
    rw [List.map_congr_left (g := fun _ => 20 ^ level) (fun o _ => by
      rw [Function.comp_apply, ih])]
    rw [List.map_const', List.sum_replicate, smul_eq_mul, mengerKept_length]
    ring

/-- **C10.** For every `level` (and any centre and size), `generateMenger`
returns exactly `20^level` points: each recursion step keeps exactly 20 of
the 27 sub-cubes, a sub-cube being skipped precisely when at least two of
its three offset coordinates are zero (7 of the 27 offsets). -/
theorem menger_count (level : ℕ) (center : V3) (size : ℚ) :
    (generateMenger level center size).length = 20 ^ level ∧
    mengerOffsets.length = 27 ∧
    (mengerOffsets.filter mengerKeep).length = 20 ∧
    (mengerOffsets.filter (fun o => !(mengerKeep o))).length = 7 := by
  exact ⟨generateMenger_length level center size, by decide, by decide, by decide⟩

/- ============================================================
   Theorems for C9.
   ============================================================ -/

theorem chooseMap_shrinkingSquare (r : ℚ) :
    chooseMap shrinkingSquare r = ⟨1/2, 0, 0, 1/2, 0, 0, 1⟩ := by
  rw [chooseMap, shrinkingSquare, chooseMapGo]
  split
  · rfl
  · rfl

theorem affine_step_normSq (p : ℚ × ℚ) (r : ℚ) :
    normSq (applyAffine p (chooseMap shrinkingSquare r))
      = (1/4) * normSq p := by
  rw [chooseMap_shrinkingSquare]
  simp only [applyAffine, normSq]
  ring

theorem normSq_sqrt_half {a b : ℚ × ℚ} (h : normSq b = (1/4) * normSq a) :
    Real.sqrt ((normSq b : ℝ)) ≤ (1/2) * Real.sqrt ((normSq a : ℝ)) := by
  have hcast : ((normSq b : ℝ)) = (1/2 : ℝ)^2 * ((normSq a : ℝ)) := by
    rw [h]
    push_cast
    ring
  rw [hcast, Real.sqrt_mul (by positivity), Real.sqrt_sq (by norm_num)]

theorem affineGo_shrink_chain (rand : ℕ → ℚ) :
    ∀ (n i : ℕ) (p : ℚ × ℚ),
      List.Chain'
        (fun a b => normSq b = (1/4) * normSq a ∧
          Real.sqrt ((normSq b : ℝ)) ≤ (1/2) * Real.sqrt ((normSq a : ℝ)))
        (p :: affineGo shrinkingSquare rand n i p) := by
  intro n
  induction n with
  | zero =>
    intro i p
    simp [affineGo]
  | succ n ih =>
    intro i p
    rw [affineGo]
    rw [List.chain'_cons]
    constructor
    · exact ⟨affine_step_normSq p (rand i),
        normSq_sqrt_half (affine_step_normSq p (rand i))⟩
    · exact ih (i + 1) (applyAffine p (chooseMap shrinkingSquare (rand i)))

/-- **C9.** For the affine IFS consisting of the single map
`a11 = a22 = 0.5`, `a12 = a21 = 0`, `b = 0` with probability 1
(`examples['Shrinking Square']`), every step of the generated sequence —
from the seed on — satisfies `|p'|² = (1/4)·|p|²`, hence
`|p'| ≤ 0.5·|p|` exactly, so the sequence of norms is monotonically
non-increasing toward the origin; this holds for every random stream. -/
theorem affine_shrinking_square_contraction (rand : ℕ → ℚ) (n : ℕ)
    (x0 y0 : ℚ) :
    List.Chain'
      (fun a b => normSq b = (1/4) * normSq a ∧
        Real.sqrt ((normSq b : ℝ)) ≤ (1/2) * Real.sqrt ((normSq a : ℝ)))
      ((x0, y0) :: generateAffineFractal shrinkingSquare n x0 y0 rand) :=
  affineGo_shrink_chain rand n 0 (x0, y0)

/- ============================================================
   Theorems for C7.
   ============================================================ -/

theorem newtonLoop_encountersBad (sq : JsF → JsF) (k : Newton.CF) (tol : ℚ)
    (maxIter : ℕ) :
    ∀ (fuel : ℕ) (z : Newton.CF) (roots : List Newton.CF) (iter : ℕ),
      Newton.encountersBad sq k tol z fuel = true →
      Newton.newtonLoop sq k tol maxIter z roots iter fuel
        = (⟨false, -1, maxIter⟩, roots) := by
  intro fuel
  induction fuel with
  | zero =>
    intro z roots iter h
    simp [Newton.encountersBad] at h
  | succ fuel ih =>
    intro z roots iter h
    rw [Newton.encountersBad] at h
    rw [Newton.newtonLoop]
    split
    · rfl
    · rename_i hbad
      rw [if_neg hbad] at h
      split
      · rename_i hconv
        rw [if_pos hconv] at h
        simp at h
      · rename_i hconv
        rw [if_neg hconv] at h
        exact ih _ roots (iter + 1) h

/-- **C7.** For every starting point `z0`, constant `k`, budget `maxIter`,
tolerance and root registry (and every square-root implementation), if the
Newton iteration from `z0` encounters a derivative whose magnitude is zero
or non-finite before convergence is detected, then `newtonConverge`
terminates with the sentinel result `hit = false`, `idx = -1`,
`iter = maxIter`, and returns the shared roots registry unchanged (the
embedding is a total function, so no error is raised). -/
theorem newton_bad_deriv_sentinel (sq : JsF → JsF) (z0 k : Newton.CF)
    (maxIter : ℕ) (tol : ℚ) (roots : List Newton.CF)
    (h : Newton.encountersBad sq k tol z0 maxIter = true) :
    Newton.newtonConverge sq z0 k maxIter tol roots
      = (⟨false, -1, maxIter⟩, roots) :=
  newtonLoop_encountersBad sq k tol maxIter maxIter z0 roots 0 h

theorem newton_bad_deriv_sentinel_witness :
    Newton.encountersBad (fun v => v) ((some 1, some 0) : Newton.CF)
      (1/1000000) ((some 0, some 0) : Newton.CF) 1 = true ∧
    Newton.newtonConverge (fun v => v) ((some 0, some 0) : Newton.CF)
      ((some 1, some 0) : Newton.CF) 1 (1/1000000) []
      = (⟨false, -1, 1⟩, []) := by
  have h : Newton.encountersBad (fun v => v) ((some 1, some 0) : Newton.CF)
      (1/1000000) ((some 0, some 0) : Newton.CF) 1 = true := by
    norm_num [Newton.encountersBad, Newton.badMag, Newton.cAbs, Newton.derivF,
      Newton.cScale, Newton.cSqr, Newton.cMul, Newton.cAdd, addF, subF, mulF]
  exact ⟨h, newton_bad_deriv_sentinel (fun v => v) (some 0, some 0)
    (some 1, some 0) 1 (1/1000000) [] h⟩

/- ============================================================
   Theorems for C6.
   ============================================================ -/

theorem addF_none_left (b : JsF) : addF none b = none := by
  cases b <;> rfl

theorem addF_none_right (a : JsF) : addF a none = none := by
  cases a <;> rfl

theorem mulF_none_left (b : JsF) : mulF none b = none := by
  cases b <;> rfl

theorem mulF_none_right (a : JsF) : mulF a none = none := by
  cases a <;> rfl

theorem mandelbulbLoop_none (M : Math3D)
    (hsqrtN : M.sqrtF none = none) (hacosN : M.acosF none = none)
    (hsinN : M.sinF none = none) (hcosN : M.cosF none = none)
    (x y z : ℚ) :
    ∀ fuel : ℕ, mandelbulbLoop M 8 2 x y z fuel none none none = false := by
  intro fuel
  induction fuel with
  | zero => rfl
  | succ fuel ih =>
    rw [mandelbulbLoop]
    norm_num [mulF_none_left, mulF_none_right, addF_none_left, addF_none_right,
      divF, gtF, hsqrtN, hacosN, hsinN, hcosN]
    exact ih

theorem julia3DLoop_none (M : Math3D)
    (hsqrtN : M.sqrtF none = none) (hacosN : M.acosF none = none)
    (hsinN : M.sinF none = none) (hcosN : M.cosF none = none)
    (c : V3) :
    ∀ fuel : ℕ,
      julia3DLoop M 8 2 c fuel none none none = (false, (none, none, none)) := by
  intro fuel
  induction fuel with
  | zero => rfl
  | succ fuel ih =>
    rw [julia3DLoop]
    norm_num [mulF_none_left, mulF_none_right, addF_none_left, addF_none_right,
      divF, gtF, hsqrtN, hacosN, hsinN, hcosN]
    exact ih

theorem addF_some (a b : ℚ) : addF (some a) (some b) = some (a + b) := rfl

theorem mulF_some (a b : ℚ) : mulF (some a) (some b) = some (a * b) := rfl

theorem divF_some (a b : ℚ) :
    divF (some a) (some b) = if b = 0 then none else some (a / b) := rfl

theorem gtF_some (a q : ℚ) : gtF (some a) q = decide (q < a) := rfl

theorem mandelbulbLoop_seed_zero (M : Math3D)
    (hsqrt0 : M.sqrtF (some 0) = some 0) (hsqrtN : M.sqrtF none = none)
    (hacosN : M.acosF none = none) (hsinN : M.sinF none = none)
    (hcosN : M.cosF none = none) (x y z : ℚ) :
    ∀ fuel : ℕ,
      mandelbulbLoop M 8 2 x y z fuel (some 0) (some 0) (some 0) = false := by
  intro fuel
  match fuel with
  | 0 => rfl
  | n + 1 =>
    rw [mandelbulbLoop]
    norm_num [mulF_some, addF_some, divF_some, gtF_some, hsqrt0, hacosN,
      hsinN, hcosN, mulF_none_left, mulF_none_right, addF_none_left]
    exact mandelbulbLoop_none M hsqrtN hacosN hsinN hcosN x y z n

theorem julia3DLoop_seed_zero (M : Math3D)
    (hsqrt0 : M.sqrtF (some 0) = some 0) (hsqrtN : M.sqrtF none = none)
    (hacosN : M.acosF none = none) (hsinN : M.sinF none = none)
    (hcosN : M.cosF none = none) (c : V3) :
    ∀ n : ℕ,
      julia3DLoop M 8 2 c (n + 1) (some 0) (some 0) (some 0)
        = (false, (none, none, none)) := by
  intro n
  rw [julia3DLoop]
  norm_num [mulF_some, addF_some, divF_some, gtF_some, hsqrt0, hacosN,
    hsinN, hcosN, mulF_none_left, mulF_none_right, addF_none_left]
  exact julia3DLoop_none M hsqrtN hacosN hsinN hcosN c n

/-- **C6 (amended).** Non-finite intermediate values never crash the 3D
escape-time generators (the embedded computations are total functions), but
they are *not* treated as bailout: every bailout comparison `r > bailout`
with non-finite `r` is false, so the seed `(0,0,0)` — whose first iteration
produces `NaN` via `acos(zz/r)` with `r = 0` — is classified as never
escaping and *is retained* in the output point set, for every iteration
budget, every added constant, and every model of the `Math` functions
agreeing with IEEE on the values actually reached (`sqrt 0 = 0` and
non-finite in, non-finite out for `sqrt`, `acos`, `sin`, `cos`).  The
Julia-3D generator even emits the non-finite final iterate itself. -/
theorem nonfinite_trajectory_retained (M : Math3D)
    (hsqrt0 : M.sqrtF (some 0) = some 0) (hsqrtN : M.sqrtF none = none)
    (hacosN : M.acosF none = none) (hsinN : M.sinF none = none)
    (hcosN : M.cosF none = none) (iterations : ℕ) (c : V3) :
    generateMandelbulb M iterations 8 2 [(0, 0, 0)] = [(0, 0, 0)] ∧
    julia3DLoop M 8 2 c (iterations + 1) (some 0) (some 0) (some 0)
      = (false, (none, none, none)) ∧
    generateJulia3D M (iterations + 1) 8 2 [(0, 0, 0)] c
      = [(none, none, none)] := by
  refine ⟨?_, ?_, ?_⟩
  · have h := mandelbulbLoop_seed_zero M hsqrt0 hsqrtN hacosN hsinN hcosN
      0 0 0 iterations
    simp [generateMandelbulb, h]
  · exact julia3DLoop_seed_zero M hsqrt0 hsqrtN hacosN hsinN hcosN c iterations
  · have h := julia3DLoop_seed_zero M hsqrt0 hsqrtN hacosN hsinN hcosN c
      iterations
    simp [generateJulia3D, h]

/-- **C6, counterexample.** The claim states that a seed whose trajectory
becomes non-finite is classified as escaped and is not retained.  At the
seed `(0,0,0)` (with the default parameters `iterations = 15`, `power = 8`,
`bailout = 2` and the default Julia-3D constant) the trajectory becomes
`NaN` after one iteration, yet both generators retain the seed: the
Mandelbulb output contains `(0,0,0)` and the Julia-3D output is the
non-finite point itself. -/
theorem nonfinite_seed_retained_counterexample :
    generateMandelbulb mathConc 15 8 2 [(0, 0, 0)] = [(0, 0, 0)] ∧
    generateJulia3D mathConc 15 8 2 [(0, 0, 0)] (0.355, 0.355, 0.355)
      = [(none, none, none)] := by
  constructor
  · have h := mandelbulbLoop_seed_zero mathConc (by decide) (by decide)
      (by decide) (by decide) (by decide) 0 0 0 15
    simp [generateMandelbulb, h]
  · have h : julia3DLoop mathConc 8 2 (0.355, 0.355, 0.355) 15
        (some 0) (some 0) (some 0) = (false, (none, none, none)) :=
      julia3DLoop_seed_zero mathConc (by decide) (by decide) (by decide)
        (by decide) (by decide) (0.355, 0.355, 0.355) 14
    simp [generateJulia3D, h]

theorem nonfinite_trajectory_retained_witness :
    generateMandelbulb mathConc 7 8 2 [(0, 0, 0)] = [(0, 0, 0)] ∧
    generateJulia3D mathConc 7 8 2 [(0, 0, 0)] (0.355, 0.355, 0.355)
      = [(none, none, none)] :=
  ⟨(nonfinite_trajectory_retained mathConc (by decide) (by decide) (by decide)
      (by decide) (by decide) 7 (0.355, 0.355, 0.355)).1,
   (nonfinite_trajectory_retained mathConc (by decide) (by decide) (by decide)
      (by decide) (by decide) 6 (0.355, 0.355, 0.355)).2.2⟩
